import Mathlib

/-!
Shallow embedding of trio's `ParkingLot` (src/trio/_core/_parking_lot.py).

A ticket is the mutable 3-list `[task, idx, lot]` created by `park`;
`_deposit_ticket` overwrites its `idx` and `lot` fields in place, and the
same record is aliased by the owning `SortedDict` table and by the abort
callback.  Tasks, lots and tickets are identified by natural numbers; the
ticket records live in a heap `tickets : Nat → Ticket` so that this aliasing
is represented faithfully.  A lot's `_parked` SortedDict is modelled as an
association list kept in ascending key order; `popitem(last=False)` is head
removal and `__setitem__` is sorted insertion.  Rescheduling a task appends
it to the `scheduled` trace.
-/

/-- The ticket record `[task, idx, lot]`. -/
structure Ticket where
  task : Nat
  idx : Nat
  lot : Nat
deriving Repr, DecidableEq

/-- The result an abort callback reports; the parking-lot callback always
returns `Abort.SUCCEEDED`. -/
inductive Abort where
  | SUCCEEDED
  | FAILED
deriving Repr, DecidableEq

/-- The `count` argument of `unpark` / `repark`: the `ParkingLot.ALL`
sentinel or a Python integer (possibly negative). -/
inductive Cnt where
  | all
  | num (n : Int)
deriving Repr, DecidableEq

/-- A value passed as `repark`'s `new_lot` argument: an actual `ParkingLot`
(identified by its number) or some non-`ParkingLot` object. -/
inductive PyVal where
  | lot (id : Nat)
  | other (v : Nat)
deriving Repr, DecidableEq

/-- Global state: the process-wide `_counter`, the allocation bound for
ticket ids, the heap of ticket records, the `_parked` table of every lot
(ascending association lists keyed by sequence number), and the trace of
tasks rescheduled so far. -/
@[ext]
structure State where
  counter : Nat
  nextTid : Nat
  tickets : Nat → Ticket
  parked : Nat → List (Nat × Nat)
  scheduled : List Nat

/-- Pointwise update of a map. -/
def upd {α : Type} (f : Nat → α) (k : Nat) (v : α) : Nat → α :=
  fun n => if n = k then v else f n

/-- `SortedDict.__setitem__`: insertion into an ascending association
list. -/
def sortedInsert (k v : Nat) : List (Nat × Nat) → List (Nat × Nat)
  | [] => [(k, v)]
  | p :: rest =>
    if k < p.1 then (k, v) :: p :: rest
    else if k = p.1 then (k, v) :: rest
    else p :: sortedInsert k v rest

/-- `del table[k]`. -/
def delKey (k : Nat) (t : List (Nat × Nat)) : List (Nat × Nat) :=
  t.filter (fun p => p.1 != k)

/-- `ParkingLot._deposit_ticket`: draw `idx = next(_counter)`, overwrite the
ticket's `idx` and `lot` fields in place, and insert the ticket into this
lot's table under `idx`. -/
def depositTicket (L tid : Nat) (s : State) : State :=
  { s with
    counter := s.counter + 1
    tickets := upd s.tickets tid ⟨(s.tickets tid).task, s.counter, L⟩
    parked := upd s.parked L (sortedInsert s.counter tid (s.parked L)) }

/-- `ParkingLot.park`: create the ticket `[current_task, None, None]`,
deposit it, and suspend with an abort callback capturing the ticket.
Returns the ticket id (the reference held by the abort callback). -/
def park (L t : Nat) (s : State) : Nat × State :=
  (s.nextTid, depositTicket L s.nextTid
    { s with nextTid := s.nextTid + 1
             tickets := upd s.tickets s.nextTid ⟨t, 0, 0⟩ })

/-- How many tickets `_pop_several` pops: the length of
`range(min(count, len(self._parked)))`.  `ALL` means the whole table; a
negative count yields an empty range. -/
def cntVal (c : Cnt) (sz : Nat) : Nat :=
  match c with
  | .all => sz
  | .num n => (min n (sz : Int)).toNat

/-- `ParkingLot.unpark`: pop up to `count` tickets from the front of the
table, then reschedule each popped task in order; returns the woken tasks
in pop (= arrival) order. -/
def unpark (L : Nat) (c : Cnt) (s : State) : List Nat × State :=
  let k := cntVal c (s.parked L).length
  let tasks := ((s.parked L).take k).map (fun p => (s.tickets p.2).task)
  (tasks,
    { s with
      parked := upd s.parked L ((s.parked L).drop k)
      scheduled := s.scheduled ++ tasks })

/-- The loop body of `repark` over `_pop_several`: `k` times, pop the front
ticket of `src` and re-deposit it into `tgt`. -/
def reparkLoop (src tgt : Nat) : Nat → State → State
  | 0, s => s
  | k + 1, s =>
    match s.parked src with
    | [] => s
    | p :: rest =>
      reparkLoop src tgt k
        (depositTicket tgt p.2 { s with parked := upd s.parked src rest })

/-- `ParkingLot.repark`: raise `TypeError` unless `new_lot` is a
`ParkingLot`; otherwise move up to `count` tickets from the front of this
lot into `new_lot`, re-depositing each.  No task is rescheduled. -/
def repark (src : Nat) (newLot : PyVal) (c : Cnt) (s : State) :
    Except Unit State :=
  match newLot with
  | .other _ => .error ()
  | .lot tgt => .ok (reparkLoop src tgt (cntVal c (s.parked src).length) s)

/-- The abort callback built in `park`: read the ticket's current
`(task, idx, lot)`, execute `del lot._parked[idx]`, and report
`Abort.SUCCEEDED` unconditionally. -/
def abortTicket (tid : Nat) (s : State) : State × Abort :=
  let tk := s.tickets tid
  ({ s with parked := upd s.parked tk.lot (delKey tk.idx (s.parked tk.lot)) },
   Abort.SUCCEEDED)

/-- `ParkingLot.__len__`. -/
def lotSize (L : Nat) (s : State) : Nat := (s.parked L).length

/-- `ParkingLot.__bool__`. -/
def lotBool (L : Nat) (s : State) : Bool := !(s.parked L).isEmpty

/-- `_ParkingLotStatistics`. -/
structure Statistics where
  tasks_waiting : Nat
deriving Repr, DecidableEq

/-- `ParkingLot.statistics`. -/
def statistics (L : Nat) (s : State) : Statistics :=
  ⟨(s.parked L).length⟩

/-- Process start: `_counter = count()` at zero, every table empty. -/
def initState : State :=
  { counter := 0, nextTid := 0, tickets := fun _ => ⟨0, 0, 0⟩,
    parked := fun _ => [], scheduled := [] }

/-- Park each task of `ts` in order into lot `L`. -/
def parkAll (L : Nat) (ts : List Nat) (s : State) : State :=
  ts.foldl (fun a t => (park L t a).2) s

/-- One API operation, for stating invariants over arbitrary call
sequences. -/
inductive Op where
  | park (L t : Nat)
  | unpark (L : Nat) (c : Cnt)
  | abort (tid : Nat)
  | repark (src : Nat) (newLot : PyVal) (c : Cnt)

/-- Run one operation; a raised `TypeError` leaves the state unchanged. -/
def runOp (s : State) : Op → State
  | .park L t => (park L t s).2
  | .unpark L c => (unpark L c s).2
  | .abort tid => (abortTicket tid s).1
  | .repark src newLot c =>
    match repark src newLot c s with
    | .ok s2 => s2
    | .error _ => s

/-- Run a sequence of operations. -/
def run (ops : List Op) (s : State) : State := ops.foldl runOp s

/-- The tasks currently parked in lot `L`, in table (= sequence-number)
order. -/
def tasksOf (L : Nat) (s : State) : List Nat :=
  (s.parked L).map (fun p => (s.tickets p.2).task)

/-- The table entries a repark starting at counter value `c` appends to the
target, for the moved ticket ids `tids`. -/
def reparkNews (c : Nat) : List Nat → List (Nat × Nat)
  | [] => []
  | tid :: tids => (c, tid) :: reparkNews (c + 1) tids

/-- Well-formedness maintained by every operation: each table is strictly
ascending in its sequence numbers, every sequence number is below the
counter, every ticket id is below the allocation bound, every table entry
agrees with its ticket record, and a ticket id occurs in at most one table
entry across all lots. -/
def WF (s : State) : Prop :=
  (∀ L, List.Pairwise (fun a b : Nat × Nat => a.1 < b.1) (s.parked L)) ∧
  (∀ L, ∀ p ∈ s.parked L, p.1 < s.counter ∧ p.2 < s.nextTid) ∧
  (∀ L, ∀ p ∈ s.parked L,
    (s.tickets p.2).idx = p.1 ∧ (s.tickets p.2).lot = L) ∧
  (∀ L1 L2, ∀ p ∈ s.parked L1, ∀ q ∈ s.parked L2,
    p.2 = q.2 → L1 = L2 ∧ p = q)

/-! ### Basic lemmas about the table and heap primitives -/

theorem upd_apply {α : Type} (f : Nat → α) (k : Nat) (v : α) (n : Nat) :
    upd f k v n = if n = k then v else f n := rfl

theorem upd_same {α : Type} (f : Nat → α) (k : Nat) (v : α) :
    upd f k v k = v := by simp [upd]

theorem upd_ne {α : Type} (f : Nat → α) (k : Nat) (v : α) {n : Nat}
    (h : n ≠ k) : upd f k v n = f n := by simp [upd, h]

theorem sortedInsert_append (k v : Nat) (t : List (Nat × Nat))
    (h : ∀ p ∈ t, p.1 < k) : sortedInsert k v t = t ++ [(k, v)] := by
  induction t with
  | nil => rfl
  | cons p rest ih =>
    have hp := h p (List.mem_cons_self _ _)
    simp only [sortedInsert]
    rw [if_neg (by omega), if_neg (by omega)]
    simp [ih (fun q hq => h q (List.mem_cons_of_mem _ hq))]

theorem delKey_eq_self (k : Nat) (t : List (Nat × Nat))
    (h : ∀ p ∈ t, p.1 ≠ k) : delKey k t = t := by
  unfold delKey
  apply List.filter_eq_self.mpr
  intro p hp
  simpa using h p hp

theorem delKey_append (k : Nat) (t1 t2 : List (Nat × Nat)) :
    delKey k (t1 ++ t2) = delKey k t1 ++ delKey k t2 := by
  simp [delKey]

theorem delKey_sublist (k : Nat) (t : List (Nat × Nat)) :
    (delKey k t).Sublist t := List.filter_sublist t

/-! ### Component equations for `depositTicket` and `park` -/

theorem depositTicket_counter (L tid : Nat) (s : State) :
    (depositTicket L tid s).counter = s.counter + 1 := rfl

theorem depositTicket_nextTid (L tid : Nat) (s : State) :
    (depositTicket L tid s).nextTid = s.nextTid := rfl

theorem depositTicket_scheduled (L tid : Nat) (s : State) :
    (depositTicket L tid s).scheduled = s.scheduled := rfl

theorem depositTicket_parked_ne (L tid : Nat) (s : State) {M : Nat}
    (h : M ≠ L) : (depositTicket L tid s).parked M = s.parked M :=
  upd_ne _ _ _ h

theorem depositTicket_parked_self (L tid : Nat) (s : State)
    (h : ∀ p ∈ s.parked L, p.1 < s.counter) :
    (depositTicket L tid s).parked L
      = s.parked L ++ [(s.counter, tid)] := by
  show upd s.parked L _ L = _
  rw [upd_same, sortedInsert_append _ _ _ h]

theorem depositTicket_tickets_ne (L tid : Nat) (s : State) {n : Nat}
    (h : n ≠ tid) : (depositTicket L tid s).tickets n = s.tickets n :=
  upd_ne _ _ _ h

theorem depositTicket_tickets_self (L tid : Nat) (s : State) :
    (depositTicket L tid s).tickets tid
      = ⟨(s.tickets tid).task, s.counter, L⟩ := upd_same _ _ _

theorem park_fst (L t : Nat) (s : State) : (park L t s).1 = s.nextTid := rfl

theorem park_counter (L t : Nat) (s : State) :
    (park L t s).2.counter = s.counter + 1 := rfl

theorem park_nextTid (L t : Nat) (s : State) :
    (park L t s).2.nextTid = s.nextTid + 1 := rfl

theorem park_scheduled (L t : Nat) (s : State) :
    (park L t s).2.scheduled = s.scheduled := rfl

theorem park_parked_ne (L t : Nat) (s : State) {M : Nat} (h : M ≠ L) :
    (park L t s).2.parked M = s.parked M := upd_ne _ _ _ h

theorem park_parked_self (L t : Nat) (s : State)
    (h : ∀ p ∈ s.parked L, p.1 < s.counter) :
    (park L t s).2.parked L = s.parked L ++ [(s.counter, s.nextTid)] := by
  show upd s.parked L _ L = _
  rw [upd_same, sortedInsert_append _ _ _ h]

theorem park_tickets_self (L t : Nat) (s : State) :
    (park L t s).2.tickets s.nextTid = ⟨t, s.counter, L⟩ := by
  simp [park, depositTicket, upd]

theorem park_tickets_ne (L t : Nat) (s : State) {n : Nat}
    (h : n ≠ s.nextTid) : (park L t s).2.tickets n = s.tickets n := by
  simp [park, depositTicket, upd, h]

/-! ### Preservation of well-formedness -/

theorem WF_initState : WF initState := by
  refine ⟨?_, ?_, ?_, ?_⟩ <;> intros <;> simp_all [initState]

theorem WF_depositTicket {s : State} (hs : WF s) (L : Nat) {tid : Nat}
    (htid : tid < s.nextTid)
    (hfresh : ∀ M, ∀ p ∈ s.parked M, p.2 ≠ tid) :
    WF (depositTicket L tid s) := by
  obtain ⟨h1, h2, h3, h4⟩ := hs
  have hbound : ∀ p ∈ s.parked L, p.1 < s.counter := fun p hp => (h2 L p hp).1
  have hparked : ∀ M, (depositTicket L tid s).parked M
      = if M = L then s.parked L ++ [(s.counter, tid)] else s.parked M := by
    intro M
    by_cases hM : M = L
    · rw [hM, if_pos rfl]
      exact depositTicket_parked_self L tid s hbound
    · rw [if_neg hM]
      exact depositTicket_parked_ne L tid s hM
  have hmem : ∀ M p, p ∈ (depositTicket L tid s).parked M →
      p ∈ s.parked M ∨ (M = L ∧ p = (s.counter, tid)) := by
    intro M p hp
    rw [hparked M] at hp
    by_cases hM : M = L
    · rw [if_pos hM] at hp
      rw [List.mem_append] at hp
      rcases hp with hp | hp
      · exact Or.inl (hM ▸ hp)
      · exact Or.inr ⟨hM, by simpa using hp⟩
    · rw [if_neg hM] at hp
      exact Or.inl hp
  refine ⟨?_, ?_, ?_, ?_⟩
  · intro M
    rw [hparked M]
    by_cases hM : M = L
    · rw [if_pos hM, List.pairwise_append]
      refine ⟨h1 L, by simp, ?_⟩
      intro p hp q hq
      simp only [List.mem_singleton] at hq
      rw [hq]
      exact hbound p hp
    · rw [if_neg hM]; exact h1 M
  · intro M p hp
    rw [depositTicket_counter, depositTicket_nextTid]
    rcases hmem M p hp with hp2 | ⟨_, hp2⟩
    · exact ⟨Nat.lt_succ_of_lt (h2 M p hp2).1, (h2 M p hp2).2⟩
    · subst hp2; exact ⟨Nat.lt_succ_self _, htid⟩
  · intro M p hp
    rcases hmem M p hp with hp2 | ⟨hM, hp2⟩
    · rw [depositTicket_tickets_ne L tid s (hfresh M p hp2)]
      exact h3 M p hp2
    · subst hM; subst hp2
      simp [depositTicket_tickets_self]
  · intro L1 L2 p hp q hq heq
    rcases hmem L1 p hp with hp2 | ⟨hL1, hp2⟩ <;>
      rcases hmem L2 q hq with hq2 | ⟨hL2, hq2⟩
    · exact h4 L1 L2 p hp2 q hq2 heq
    · exact absurd (heq.trans (by rw [hq2])) (hfresh L1 p hp2)
    · exact absurd (heq.symm.trans (by rw [hp2])) (hfresh L2 q hq2)
    · subst hL1; subst hL2; subst hp2; subst hq2; exact ⟨rfl, rfl⟩

theorem WF_park {s : State} (hs : WF s) (L t : Nat) : WF (park L t s).2 := by
  obtain ⟨h1, h2, h3, h4⟩ := hs
  have hs1 : WF { s with nextTid := s.nextTid + 1
                         tickets := upd s.tickets s.nextTid ⟨t, 0, 0⟩ } := by
    refine ⟨h1, ?_, ?_, h4⟩
    · intro M p hp
      exact ⟨(h2 M p hp).1, Nat.lt_succ_of_lt (h2 M p hp).2⟩
    · intro M p hp
      have : p.2 ≠ s.nextTid := Nat.ne_of_lt (h2 M p hp).2
      simp only [upd_ne _ _ _ this]
      exact h3 M p hp
  exact WF_depositTicket hs1 L (Nat.lt_succ_self _)
    (fun M p hp => Nat.ne_of_lt (h2 M p hp).2)

theorem WF_congr {s s2 : State} (hs : WF s) (hc : s2.counter = s.counter)
    (hn : s2.nextTid = s.nextTid) (ht : s2.tickets = s.tickets)
    (hp : s2.parked = s.parked) : WF s2 := by
  simp only [WF, hc, hn, ht, hp]
  exact hs

theorem WF_shrink {s : State} (hs : WF s) (L : Nat)
    {t : List (Nat × Nat)} (ht : t.Sublist (s.parked L)) :
    WF { s with parked := upd s.parked L t } := by
  obtain ⟨h1, h2, h3, h4⟩ := hs
  have hmem : ∀ M p, p ∈ upd s.parked L t M → p ∈ s.parked M := by
    intro M p hp
    rw [upd_apply] at hp
    by_cases hM : M = L
    · rw [if_pos hM] at hp
      rw [hM]
      exact ht.subset hp
    · rw [if_neg hM] at hp
      exact hp
  refine ⟨?_, fun M p hp => h2 M p (hmem M p hp),
    fun M p hp => h3 M p (hmem M p hp),
    fun L1 L2 p hp q hq heq => h4 L1 L2 p (hmem L1 p hp) q (hmem L2 q hq) heq⟩
  intro M
  show List.Pairwise _ (upd s.parked L t M)
  rw [upd_apply]
  by_cases hM : M = L
  · rw [if_pos hM]
    exact List.Pairwise.sublist ht (h1 L)
  · rw [if_neg hM]
    exact h1 M

theorem WF_unpark {s : State} (hs : WF s) (L : Nat) (c : Cnt) :
    WF (unpark L c s).2 :=
  WF_congr (WF_shrink hs L (List.drop_sublist _ _)) rfl rfl rfl rfl

theorem WF_abort {s : State} (hs : WF s) (tid : Nat) :
    WF (abortTicket tid s).1 :=
  WF_shrink hs _ (delKey_sublist _ _)

theorem pop_fresh {s : State} (hs : WF s) {src : Nat} {p : Nat × Nat}
    {rest : List (Nat × Nat)} (hsrc : s.parked src = p :: rest) :
    ∀ M, ∀ q ∈ (upd s.parked src rest) M, q.2 ≠ p.2 := by
  obtain ⟨h1, h2, h3, h4⟩ := hs
  have hps : p ∈ s.parked src := by rw [hsrc]; exact List.mem_cons_self _ _
  intro M q hq heq
  by_cases hM : M = src
  · rw [hM, upd_same] at hq
    have hqs : q ∈ s.parked src := by
      rw [hsrc]; exact List.mem_cons_of_mem _ hq
    have hqp := (h4 src src q hqs p hps heq).2
    have hpair := h1 src
    rw [hsrc, List.pairwise_cons] at hpair
    have hlt := hpair.1 q hq
    rw [hqp] at hlt
    exact lt_irrefl _ hlt
  · rw [upd_ne _ _ _ hM] at hq
    exact hM (h4 M src q hq p hps heq).1

theorem reparkLoop_zero (src tgt : Nat) (s : State) :
    reparkLoop src tgt 0 s = s := rfl

theorem reparkLoop_succ_nil (src tgt k : Nat) {s : State}
    (h : s.parked src = []) : reparkLoop src tgt (k + 1) s = s := by
  simp only [reparkLoop, h]

theorem reparkLoop_succ_cons (src tgt k : Nat) {s : State} {p : Nat × Nat}
    {rest : List (Nat × Nat)} (h : s.parked src = p :: rest) :
    reparkLoop src tgt (k + 1) s
      = reparkLoop src tgt k
          (depositTicket tgt p.2 { s with parked := upd s.parked src rest }) := by
  simp only [reparkLoop, h]

theorem WF_reparkStep {s : State} (hs : WF s) (src tgt : Nat)
    {p : Nat × Nat} {rest : List (Nat × Nat)}
    (hsrc : s.parked src = p :: rest) :
    WF (depositTicket tgt p.2 { s with parked := upd s.parked src rest }) := by
  have hpop : WF { s with parked := upd s.parked src rest } :=
    WF_shrink hs src (by rw [hsrc]; exact List.sublist_cons_self _ _)
  have htid : p.2 < s.nextTid :=
    (hs.2.1 src p (by rw [hsrc]; exact List.mem_cons_self _ _)).2
  exact WF_depositTicket hpop tgt htid (pop_fresh hs hsrc)

theorem WF_reparkLoop {src tgt : Nat} :
    ∀ (k : Nat) {s : State}, WF s → WF (reparkLoop src tgt k s) := by
  intro k
  induction k with
  | zero => intro s hs; exact hs
  | succ k ih =>
    intro s hs
    cases hsrc : s.parked src with
    | nil => rw [reparkLoop_succ_nil src tgt k hsrc]; exact hs
    | cons p rest =>
      rw [reparkLoop_succ_cons src tgt k hsrc]
      exact ih (WF_reparkStep hs src tgt hsrc)

theorem WF_runOp {s : State} (hs : WF s) (op : Op) : WF (runOp s op) := by
  cases op with
  | park L t => exact WF_park hs L t
  | unpark L c => exact WF_unpark hs L c
  | abort tid => exact WF_abort hs tid
  | repark src newLot c =>
    cases newLot with
    | lot tgt => exact WF_reparkLoop _ hs
    | other v => exact hs

theorem WF_run (ops : List Op) {s : State} (hs : WF s) : WF (run ops s) := by
  induction ops generalizing s with
  | nil => exact hs
  | cons op ops ih => exact ih (WF_runOp hs op)

/-! ### Behavioural lemmas for `park`, `parkAll` and `unpark` -/

theorem park_tasksOf {s : State} (hs : WF s) (L t : Nat) :
    tasksOf L (park L t s).2 = tasksOf L s ++ [t] := by
  obtain ⟨h1, h2, h3, h4⟩ := hs
  unfold tasksOf
  rw [park_parked_self L t s (fun p hp => (h2 L p hp).1), List.map_append]
  congr 1
  · apply List.map_congr_left
    intro p hp
    rw [park_tickets_ne L t s (Nat.ne_of_lt (h2 L p hp).2)]
  · simp [park_tickets_self]

theorem parkAll_tasksOf {L : Nat} :
    ∀ (ts : List Nat) {s : State}, WF s →
      tasksOf L (parkAll L ts s) = tasksOf L s ++ ts := by
  intro ts
  induction ts with
  | nil => intro s _; simp [parkAll]
  | cons t ts ih =>
    intro s hs
    show tasksOf L (parkAll L ts (park L t s).2) = _
    rw [ih (WF_park hs L t), park_tasksOf hs L t]
    simp

theorem WF_parkAll {L : Nat} :
    ∀ (ts : List Nat) {s : State}, WF s → WF (parkAll L ts s) := by
  intro ts
  induction ts with
  | nil => intro s hs; exact hs
  | cons t ts ih =>
    intro s hs
    exact ih (WF_park hs L t)

theorem parkAll_scheduled {L : Nat} :
    ∀ (ts : List Nat) (s : State), (parkAll L ts s).scheduled = s.scheduled := by
  intro ts
  induction ts with
  | nil => intro s; rfl
  | cons t ts ih => intro s; exact ih (park L t s).2

theorem unpark_fst (L : Nat) (c : Cnt) (s : State) :
    (unpark L c s).1
      = ((s.parked L).take (cntVal c (s.parked L).length)).map
          (fun p => (s.tickets p.2).task) := rfl

theorem unpark_parked_self (L : Nat) (c : Cnt) (s : State) :
    (unpark L c s).2.parked L
      = (s.parked L).drop (cntVal c (s.parked L).length) := upd_same _ _ _

theorem unpark_parked_ne (L : Nat) (c : Cnt) (s : State) {M : Nat}
    (h : M ≠ L) : (unpark L c s).2.parked M = s.parked M := upd_ne _ _ _ h

theorem unpark_scheduled (L : Nat) (c : Cnt) (s : State) :
    (unpark L c s).2.scheduled = s.scheduled ++ (unpark L c s).1 := rfl

theorem unpark_tickets (L : Nat) (c : Cnt) (s : State) :
    (unpark L c s).2.tickets = s.tickets := rfl

theorem cntVal_all (sz : Nat) : cntVal Cnt.all sz = sz := rfl

theorem cntVal_num_of_le {k sz : Nat} (h : k ≤ sz) :
    cntVal (Cnt.num k) sz = k := by
  show (min (k : Int) (sz : Int)).toNat = k
  omega

theorem cntVal_num_of_ge {n : Int} {sz : Nat} (h : (sz : Int) ≤ n) :
    cntVal (Cnt.num n) sz = sz := by
  show (min n (sz : Int)).toNat = sz
  omega

theorem cntVal_num_neg {n : Int} (h : n < 0) (sz : Nat) :
    cntVal (Cnt.num n) sz = 0 := by
  show (min n (sz : Int)).toNat = 0
  omega

theorem unpark_all_fst (L : Nat) (s : State) :
    (unpark L Cnt.all s).1 = tasksOf L s := by
  rw [unpark_fst, cntVal_all, List.take_length]
  rfl

theorem unpark_all_parked (L : Nat) (s : State) :
    (unpark L Cnt.all s).2.parked L = [] := by
  rw [unpark_parked_self, cntVal_all, List.drop_length]

/-! ### Behavioural lemmas for `repark` -/

theorem reparkNews_snd :
    ∀ (tids : List Nat) (c : Nat),
      (reparkNews c tids).map Prod.snd = tids := by
  intro tids
  induction tids with
  | nil => intro c; rfl
  | cons tid tids ih => intro c; simp [reparkNews, ih (c + 1)]

theorem reparkNews_keys :
    ∀ (tids : List Nat) (c : Nat), ∀ q ∈ reparkNews c tids, c ≤ q.1 := by
  intro tids
  induction tids with
  | nil => intro c q hq; simp [reparkNews] at hq
  | cons tid tids ih =>
    intro c q hq
    simp only [reparkNews, List.mem_cons] at hq
    rcases hq with hq | hq
    · rw [hq]
    · exact Nat.le_of_succ_le (ih (c + 1) q hq)

theorem reparkStep_parked_src {s : State} {src tgt : Nat} (hne : tgt ≠ src)
    {p : Nat × Nat} {rest : List (Nat × Nat)}
    (_hsrc : s.parked src = p :: rest) :
    (depositTicket tgt p.2
      { s with parked := upd s.parked src rest }).parked src = rest := by
  rw [depositTicket_parked_ne tgt p.2 _ (Ne.symm hne)]
  exact upd_same _ _ _

theorem reparkStep_parked_tgt {s : State} (hs : WF s) {src tgt : Nat}
    (hne : tgt ≠ src) {p : Nat × Nat} {rest : List (Nat × Nat)} :
    (depositTicket tgt p.2
        { s with parked := upd s.parked src rest }).parked tgt
      = s.parked tgt ++ [(s.counter, p.2)] := by
  have hbound : ∀ q ∈ upd s.parked src rest tgt, q.1 < s.counter := by
    intro q hq
    rw [upd_ne _ _ _ hne] at hq
    exact (hs.2.1 tgt q hq).1
  rw [depositTicket_parked_self tgt p.2 _ hbound]
  show upd s.parked src rest tgt ++ [(s.counter, p.2)] = _
  rw [upd_ne _ _ _ hne]

theorem reparkStep_tickets_task {s : State} {src tgt : Nat}
    {p : Nat × Nat} {rest : List (Nat × Nat)} :
    ((depositTicket tgt p.2
        { s with parked := upd s.parked src rest }).tickets p.2).task
      = (s.tickets p.2).task := by
  rw [depositTicket_tickets_self]

/-- Behaviour of `repark`'s loop when the two lots are distinct: the first
`k` entries move from the front of `src` to the back of `tgt`, with fresh
consecutive sequence numbers starting at the current counter, the moved
tickets keeping their tasks; nothing is rescheduled. -/
theorem reparkLoop_spec {src tgt : Nat} (hne : tgt ≠ src) :
    ∀ (k : Nat) {s : State}, WF s → k ≤ (s.parked src).length →
      (reparkLoop src tgt k s).parked src = (s.parked src).drop k ∧
      (reparkLoop src tgt k s).parked tgt
        = s.parked tgt
          ++ reparkNews s.counter (((s.parked src).take k).map Prod.snd) ∧
      tasksOf tgt (reparkLoop src tgt k s)
        = tasksOf tgt s
          ++ ((s.parked src).take k).map (fun q => (s.tickets q.2).task) ∧
      (reparkLoop src tgt k s).scheduled = s.scheduled := by
  intro k
  induction k with
  | zero =>
    intro s hs hk
    refine ⟨rfl, ?_, ?_, rfl⟩ <;> simp [reparkLoop_zero, reparkNews]
  | succ k ih =>
    intro s hs hk
    cases hsrc : s.parked src with
    | nil => rw [hsrc] at hk; simp at hk
    | cons p rest =>
      rw [hsrc] at hk
      have hk2 : k ≤ rest.length := by simpa using hk
      have hWF1 : WF (depositTicket tgt p.2
          { s with parked := upd s.parked src rest }) :=
        WF_reparkStep hs src tgt hsrc
      have h1src := reparkStep_parked_src hne hsrc
      have h1tgt := @reparkStep_parked_tgt s hs src tgt hne p rest
      have hfresh : ∀ q ∈ rest, q.2 ≠ p.2 := by
        intro q hq
        apply pop_fresh hs hsrc src
        rw [upd_same]
        exact hq
      have htgtfresh : ∀ q ∈ s.parked tgt, q.2 ≠ p.2 := by
        intro q hq heq
        exact hne (hs.2.2.2 tgt src q hq p
          (by rw [hsrc]; exact List.mem_cons_self _ _) heq).1
      obtain ⟨ih1, ih2, ih3, ih4⟩ := ih hWF1 (by rw [h1src]; exact hk2)
      have htasks1 : tasksOf tgt (depositTicket tgt p.2
            { s with parked := upd s.parked src rest })
          = tasksOf tgt s ++ [(s.tickets p.2).task] := by
        unfold tasksOf
        rw [h1tgt, List.map_append]
        congr 1
        · apply List.map_congr_left
          intro q hq
          rw [depositTicket_tickets_ne _ _ _ (htgtfresh q hq)]
        · simp [reparkStep_tickets_task]
      rw [reparkLoop_succ_cons src tgt k hsrc]
      refine ⟨?_, ?_, ?_, ?_⟩
      · rw [ih1, h1src, List.drop_succ_cons]
      · rw [ih2, h1tgt, h1src]
        have hc1 : (depositTicket tgt p.2
            { s with parked := upd s.parked src rest }).counter
          = s.counter + 1 := rfl
        rw [hc1, List.take_succ_cons, List.map_cons, List.append_assoc]
        rfl
      · rw [ih3, htasks1, h1src, List.take_succ_cons, List.map_cons,
          List.append_assoc]
        congr 1
        show (s.tickets p.2).task :: _ = _
        congr 1
        apply List.map_congr_left
        intro q hq
        rw [depositTicket_tickets_ne _ _ _
          (hfresh q (List.take_subset k rest hq))]
      · exact ih4

theorem repark_lot (src tgt : Nat) (c : Cnt) (s : State) :
    repark src (PyVal.lot tgt) c s
      = Except.ok (reparkLoop src tgt (cntVal c (s.parked src).length) s) :=
  rfl

theorem repark_other (src v : Nat) (c : Cnt) (s : State) :
    repark src (PyVal.other v) c s = Except.error () := rfl

/-! ### Remaining small helper lemmas -/

theorem cntVal_le (c : Cnt) (sz : Nat) : cntVal c sz ≤ sz := by
  cases c with
  | all => exact le_refl _
  | num n =>
    show (min n (sz : Int)).toNat ≤ sz
    omega

theorem mem_sortedInsert (k v : Nat) :
    ∀ t : List (Nat × Nat), (k, v) ∈ sortedInsert k v t := by
  intro t
  induction t with
  | nil => exact List.mem_singleton.mpr rfl
  | cons p rest ih =>
    simp only [sortedInsert]
    by_cases h1 : k < p.1
    · rw [if_pos h1]; exact List.mem_cons_self _ _
    · rw [if_neg h1]
      by_cases h2 : k = p.1
      · rw [if_pos h2]; exact List.mem_cons_self _ _
      · rw [if_neg h2]; exact List.mem_cons_of_mem _ ih

theorem unpark_counter (L : Nat) (c : Cnt) (s : State) :
    (unpark L c s).2.counter = s.counter := rfl

theorem unpark_parked (L : Nat) (c : Cnt) (s : State) :
    (unpark L c s).2.parked
      = upd s.parked L
          ((s.parked L).drop (cntVal c (s.parked L).length)) := rfl

theorem abortTicket_snd (tid : Nat) (s : State) :
    (abortTicket tid s).2 = Abort.SUCCEEDED := rfl

theorem abortTicket_tickets (tid : Nat) (s : State) :
    (abortTicket tid s).1.tickets = s.tickets := rfl

theorem counter_le_reparkLoop (src tgt : Nat) :
    ∀ (k : Nat) (s : State), s.counter ≤ (reparkLoop src tgt k s).counter := by
  intro k
  induction k with
  | zero => intro s; exact le_refl _
  | succ k ih =>
    intro s
    cases hsrc : s.parked src with
    | nil =>
      rw [reparkLoop_succ_nil src tgt k hsrc]
    | cons p rest =>
      rw [reparkLoop_succ_cons src tgt k hsrc]
      exact le_trans (Nat.le_succ _)
        (ih (depositTicket tgt p.2 { s with parked := upd s.parked src rest }))

theorem counter_le_runOp (s : State) (op : Op) :
    s.counter ≤ (runOp s op).counter := by
  cases op with
  | park L t => exact Nat.le_succ _
  | unpark L c => exact le_refl _
  | abort tid => exact le_refl _
  | repark src newLot c =>
    cases newLot with
    | lot tgt => exact counter_le_reparkLoop _ _ _ _
    | other v => exact le_refl _

/-! ### The claims -/

/-- C1: if tasks `ts = [T1, ..., Tn]` park in that order into a lot that
holds no earlier ticket, then `unpark(count=ALL)` returns exactly
`[T1, ..., Tn]` in arrival order, reschedules exactly those tasks in that
order, and leaves the lot empty. -/
theorem C1_unpark_all_fifo (s : State) (L : Nat) (ts : List Nat)
    (hs : WF s) (hempty : s.parked L = []) :
    (unpark L Cnt.all (parkAll L ts s)).1 = ts ∧
    (unpark L Cnt.all (parkAll L ts s)).2.parked L = [] ∧
    (unpark L Cnt.all (parkAll L ts s)).2.scheduled
      = (parkAll L ts s).scheduled ++ ts := by
  have hts : tasksOf L (parkAll L ts s) = ts := by
    rw [parkAll_tasksOf ts hs]
    simp [tasksOf, hempty]
  refine ⟨?_, unpark_all_parked _ _, ?_⟩
  · rw [unpark_all_fst, hts]
  · rw [unpark_scheduled, unpark_all_fst, hts]

theorem C1_unpark_all_fifo_witness :
    WF initState ∧ initState.parked 0 = [] ∧
    (unpark 0 Cnt.all (parkAll 0 [5, 6, 7] initState)).1 = [5, 6, 7] :=
  ⟨WF_initState, rfl,
    (C1_unpark_all_fifo initState 0 [5, 6, 7] WF_initState rfl).1⟩

/-- C4: with `n` tasks parked and `0 ≤ k ≤ n`, `unpark(count=k)` returns and
reschedules exactly the `k` earliest-parked tasks in arrival order, and the
remaining `n - k` tickets stay, keeping their relative order; every popped
entry has a strictly smaller sequence number than every remaining one. -/
theorem C4_partial_unpark (s : State) (L : Nat) (k : Nat) (hs : WF s)
    (hk : k ≤ lotSize L s) :
    (unpark L (Cnt.num k) s).1 = (tasksOf L s).take k ∧
    (unpark L (Cnt.num k) s).2.parked L = (s.parked L).drop k ∧
    tasksOf L (unpark L (Cnt.num k) s).2 = (tasksOf L s).drop k ∧
    (∀ p ∈ (s.parked L).take k, ∀ q ∈ (s.parked L).drop k, p.1 < q.1) ∧
    (unpark L (Cnt.num k) s).2.scheduled
      = s.scheduled ++ (tasksOf L s).take k := by
  have hc : cntVal (Cnt.num k) (s.parked L).length = k := cntVal_num_of_le hk
  have h1 : (unpark L (Cnt.num k) s).1 = (tasksOf L s).take k := by
    rw [unpark_fst, hc, tasksOf, List.map_take]
  refine ⟨h1, ?_, ?_, ?_, ?_⟩
  · rw [unpark_parked_self, hc]
  · rw [tasksOf, unpark_tickets, unpark_parked_self, hc, tasksOf,
      List.map_drop]
  · have hpair := hs.1 L
    rw [← List.take_append_drop k (s.parked L), List.pairwise_append] at hpair
    exact hpair.2.2
  · rw [unpark_scheduled, h1]

theorem C4_partial_unpark_witness :
    WF (run [Op.park 0 10, Op.park 0 11, Op.park 0 12] initState) ∧
    2 ≤ lotSize 0 (run [Op.park 0 10, Op.park 0 11, Op.park 0 12] initState) ∧
    (unpark 0 (Cnt.num 2)
        (run [Op.park 0 10, Op.park 0 11, Op.park 0 12] initState)).1
      = (tasksOf 0
          (run [Op.park 0 10, Op.park 0 11, Op.park 0 12] initState)).take 2 :=
  ⟨WF_run _ WF_initState, by decide,
    (C4_partial_unpark _ 0 2 (WF_run _ WF_initState) (by decide)).1⟩

/-- C5: an `unpark` whose count exceeds the number of parked tasks, or uses
the ALL sentinel, is not an error: it pops everything present, returning a
list of exactly `size` tasks and leaving the table empty. -/
theorem C5_oversized_unpark (s : State) (L : Nat) (n : Int)
    (hn : (lotSize L s : Int) ≤ n) :
    (unpark L (Cnt.num n) s).1 = tasksOf L s ∧
    (unpark L (Cnt.num n) s).1.length = lotSize L s ∧
    (unpark L (Cnt.num n) s).2.parked L = [] ∧
    (unpark L Cnt.all s).1 = tasksOf L s ∧
    (unpark L Cnt.all s).2.parked L = [] := by
  have hc : cntVal (Cnt.num n) (s.parked L).length = (s.parked L).length :=
    cntVal_num_of_ge hn
  have h1 : (unpark L (Cnt.num n) s).1 = tasksOf L s := by
    rw [unpark_fst, hc, List.take_length]
    rfl
  refine ⟨h1, ?_, ?_, unpark_all_fst _ _, unpark_all_parked _ _⟩
  · rw [h1, tasksOf, List.length_map]
    rfl
  · rw [unpark_parked_self, hc, List.drop_length]

theorem C5_oversized_unpark_witness :
    ((lotSize 0 (run [Op.park 0 4, Op.park 0 9] initState) : Int) ≤ 5) ∧
    (unpark 0 (Cnt.num 5) (run [Op.park 0 4, Op.park 0 9] initState)).1.length
      = lotSize 0 (run [Op.park 0 4, Op.park 0 9] initState) ∧
    lotSize 0 (run [Op.park 0 4, Op.park 0 9] initState) = 2 :=
  ⟨by decide,
    (C5_oversized_unpark (run [Op.park 0 4, Op.park 0 9] initState) 0 5
      (by decide)).2.1,
    by decide⟩

/-- C6: `repark` with a non-ParkingLot target raises `TypeError` before
popping or depositing anything, so the state — in particular every lot's
table — is exactly what it was before the failed call. -/
theorem C6_repark_type_error (src v : Nat) (c : Cnt) (s : State) :
    repark src (PyVal.other v) c s = Except.error () ∧
    runOp s (Op.repark src (PyVal.other v) c) = s :=
  ⟨rfl, rfl⟩

/-- C8: after any sequence of park/unpark/cancel/repark operations from
process start, each lot's `__len__` equals the number of tickets in its
table (a natural number, hence never negative), the `__bool__` emptiness
test is false exactly when that size is 0, and
`statistics().tasks_waiting` equals that same size. -/
theorem C8_size_consistency (ops : List Op) (L : Nat) :
    lotSize L (run ops initState)
        = ((run ops initState).parked L).length ∧
    ((lotBool L (run ops initState) = false) ↔
      lotSize L (run ops initState) = 0) ∧
    (statistics L (run ops initState)).tasks_waiting
      = lotSize L (run ops initState) := by
  refine ⟨rfl, ?_, rfl⟩
  simp [lotBool, lotSize, List.isEmpty_iff_length_eq_zero]

/-- C10: a negative `count` is treated as zero: `unpark` reschedules
nothing, changes nothing and returns the empty list, and `repark` onto a
valid target moves nothing and leaves the state unchanged. -/
theorem C10_negative_count (s : State) (L src tgt : Nat) (n : Int)
    (hn : n < 0) :
    unpark L (Cnt.num n) s = ([], s) ∧
    repark src (PyVal.lot tgt) (Cnt.num n) s = Except.ok s := by
  have hc : ∀ sz, cntVal (Cnt.num n) sz = 0 := cntVal_num_neg hn
  have h1 : (unpark L (Cnt.num n) s).1 = [] := by
    rw [unpark_fst, hc, List.take_zero, List.map_nil]
  have h2 : (unpark L (Cnt.num n) s).2 = s := by
    apply State.ext
    · rfl
    · rfl
    · rfl
    · rw [unpark_parked, hc, List.drop_zero]
      funext M
      by_cases hM : M = L
      · rw [hM, upd_same]
      · rw [upd_ne _ _ _ hM]
    · rw [unpark_scheduled, h1, List.append_nil]
  constructor
  · calc unpark L (Cnt.num n) s
        = ((unpark L (Cnt.num n) s).1, (unpark L (Cnt.num n) s).2) := rfl
    _ = ([], s) := by rw [h1, h2]
  · rw [repark_lot, hc, reparkLoop_zero]

theorem C10_negative_count_witness :
    (-1 : Int) < 0 ∧
    unpark 0 (Cnt.num (-1)) (run [Op.park 0 4] initState)
      = ([], run [Op.park 0 4] initState) ∧
    repark 0 (PyVal.lot 1) (Cnt.num (-1)) (run [Op.park 0 4] initState)
      = Except.ok (run [Op.park 0 4] initState) :=
  ⟨by decide,
    (C10_negative_count (run [Op.park 0 4] initState) 0 0 1 (-1)
      (by decide)).1,
    (C10_negative_count (run [Op.park 0 4] initState) 0 0 1 (-1)
      (by decide)).2⟩

/-- C2: `repark` onto a distinct lot pops min(count, size) tickets from the
source front in arrival order, re-inserts each into the target's table with
a fresh strictly larger sequence number, and reschedules no task, so every
ticket already waiting in the target stays strictly ahead of every
transferred one; in particular after parking A then B into Q1 and C into
Q2, `Q1.repark(Q2, count=ALL)` followed by `Q2.unpark(count=ALL)` returns
[C, A, B]. -/
theorem C2_repark :
    (∀ (s : State) (Q1 Q2 : Nat) (c : Cnt), WF s → Q2 ≠ Q1 →
      ∃ s2, repark Q1 (PyVal.lot Q2) c s = Except.ok s2 ∧
        s2.scheduled = s.scheduled ∧
        s2.parked Q1
          = (s.parked Q1).drop (cntVal c (s.parked Q1).length) ∧
        (∃ news, s2.parked Q2 = s.parked Q2 ++ news ∧
          news.map Prod.snd
            = ((s.parked Q1).take
                (cntVal c (s.parked Q1).length)).map Prod.snd ∧
          ∀ p ∈ s.parked Q2, ∀ q ∈ news, p.1 < q.1) ∧
        tasksOf Q2 s2
          = tasksOf Q2 s
            ++ ((s.parked Q1).take (cntVal c (s.parked Q1).length)).map
                (fun q => (s.tickets q.2).task)) ∧
    (∀ a b c3 : Nat,
      (unpark 1 Cnt.all (run [Op.park 0 a, Op.park 0 b, Op.park 1 c3,
        Op.repark 0 (PyVal.lot 1) Cnt.all] initState)).1 = [c3, a, b]) := by
  constructor
  · intro s Q1 Q2 c hs hne
    obtain ⟨h1, h2, h3, h4⟩ :=
      reparkLoop_spec hne (cntVal c (s.parked Q1).length) hs
        (cntVal_le c (s.parked Q1).length)
    refine ⟨_, repark_lot Q1 Q2 c s, h4, h1,
      ⟨reparkNews s.counter _, h2, reparkNews_snd _ _, ?_⟩, h3⟩
    intro p hp q hq
    have hq1 := reparkNews_keys _ s.counter q hq
    have hp1 := (hs.2.1 Q2 p hp).1
    omega
  · intro a b c3
    rfl

theorem C2_repark_witness :
    WF (run [Op.park 0 1, Op.park 0 2, Op.park 1 3] initState) ∧
    (1 : Nat) ≠ 0 ∧
    (∃ s2, repark 0 (PyVal.lot 1) Cnt.all
          (run [Op.park 0 1, Op.park 0 2, Op.park 1 3] initState)
        = Except.ok s2 ∧
      s2.scheduled
        = (run [Op.park 0 1, Op.park 0 2, Op.park 1 3] initState).scheduled ∧
      s2.parked 0
        = ((run [Op.park 0 1, Op.park 0 2, Op.park 1 3] initState).parked
            0).drop
            (cntVal Cnt.all
              ((run [Op.park 0 1, Op.park 0 2, Op.park 1 3]
                initState).parked 0).length) ∧
      (∃ news, s2.parked 1
          = (run [Op.park 0 1, Op.park 0 2, Op.park 1 3] initState).parked 1
            ++ news ∧
        news.map Prod.snd
          = (((run [Op.park 0 1, Op.park 0 2, Op.park 1 3]
              initState).parked 0).take
              (cntVal Cnt.all
                ((run [Op.park 0 1, Op.park 0 2, Op.park 1 3]
                  initState).parked 0).length)).map Prod.snd ∧
        ∀ p ∈ (run [Op.park 0 1, Op.park 0 2, Op.park 1 3] initState).parked
            1, ∀ q ∈ news, p.1 < q.1) ∧
      tasksOf 1 s2
        = tasksOf 1 (run [Op.park 0 1, Op.park 0 2, Op.park 1 3] initState)
          ++ (((run [Op.park 0 1, Op.park 0 2, Op.park 1 3]
              initState).parked 0).take
              (cntVal Cnt.all
                ((run [Op.park 0 1, Op.park 0 2, Op.park 1 3]
                  initState).parked 0).length)).map
              (fun q =>
                ((run [Op.park 0 1, Op.park 0 2, Op.park 1 3]
                  initState).tickets q.2).task)) :=
  ⟨WF_run _ WF_initState, by decide,
    C2_repark.1 (run [Op.park 0 1, Op.park 0 2, Op.park 1 3] initState)
      0 1 Cnt.all (WF_run _ WF_initState) (by decide)⟩

/-- C7: the sequence counter is process-wide state shared by all lots,
starting at zero; every ticket deposit (via park or repark) increments it
exactly once, stamps the ticket with the pre-increment value and inserts
the ticket under that sequence number, which is strictly larger than the
sequence number of every ticket currently present in any lot; and no
operation ever decreases the counter. -/
theorem C7_sequencer (s : State) (L tid : Nat) (hs : WF s) :
    initState.counter = 0 ∧
    (depositTicket L tid s).counter = s.counter + 1 ∧
    ((depositTicket L tid s).tickets tid).idx = s.counter ∧
    (s.counter, tid) ∈ (depositTicket L tid s).parked L ∧
    (∀ M, ∀ q ∈ s.parked M,
      q.1 < ((depositTicket L tid s).tickets tid).idx) ∧
    (∀ op : Op, s.counter ≤ (runOp s op).counter) := by
  refine ⟨rfl, rfl, ?_, ?_, ?_, counter_le_runOp s⟩
  · rw [depositTicket_tickets_self]
  · show (s.counter, tid)
      ∈ upd s.parked L (sortedInsert s.counter tid (s.parked L)) L
    rw [upd_same]
    exact mem_sortedInsert _ _ _
  · intro M q hq
    rw [depositTicket_tickets_self]
    exact (hs.2.1 M q hq).1

theorem C7_sequencer_witness :
    WF initState ∧
    (depositTicket 0 0 initState).counter = initState.counter + 1 ∧
    ((depositTicket 0 0 initState).tickets 0).idx = initState.counter :=
  ⟨WF_initState, (C7_sequencer initState 0 0 WF_initState).2.1,
    (C7_sequencer initState 0 0 WF_initState).2.2.1⟩

/-- C3: park T1, T2, T3 in that order into a lot with no earlier ticket;
invoking T2's abort callback while its ticket is still in the table removes
exactly T2's ticket (T1's and T3's entries remain, in order), reports
`Abort.SUCCEEDED` unconditionally, and a subsequent `unpark(count=ALL)`
returns [T1, T3] in that order, leaving the lot's size 0. -/
theorem C3_cancel_removes_one (s : State) (L t1 t2 t3 : Nat)
    (hempty : s.parked L = []) :
    (abortTicket (s.nextTid + 1) (parkAll L [t1, t2, t3] s)).2
        = Abort.SUCCEEDED ∧
    (abortTicket (s.nextTid + 1) (parkAll L [t1, t2, t3] s)).1.parked L
        = [(s.counter, s.nextTid), (s.counter + 2, s.nextTid + 2)] ∧
    (unpark L Cnt.all
        (abortTicket (s.nextTid + 1) (parkAll L [t1, t2, t3] s)).1).1
      = [t1, t3] ∧
    lotSize L (unpark L Cnt.all
        (abortTicket (s.nextTid + 1) (parkAll L [t1, t2, t3] s)).1).2
      = 0 := by
  have hPA : parkAll L [t1, t2, t3] s
      = (park L t3 (park L t2 (park L t1 s).2).2).2 := rfl
  have h0 : ∀ p ∈ s.parked L, p.1 < s.counter := by
    rw [hempty]
    intro p hp
    simp at hp
  have hp1 : (park L t1 s).2.parked L = [(s.counter, s.nextTid)] := by
    rw [park_parked_self L t1 s h0, hempty, List.nil_append]
  have hb1 : ∀ p ∈ (park L t1 s).2.parked L,
      p.1 < (park L t1 s).2.counter := by
    rw [hp1, park_counter]
    intro p hp
    rw [List.mem_singleton] at hp
    rw [hp]
    exact Nat.lt_succ_self _
  have hp2 : (park L t2 (park L t1 s).2).2.parked L
      = [(s.counter, s.nextTid), (s.counter + 1, s.nextTid + 1)] := by
    rw [park_parked_self _ t2 _ hb1, hp1, park_counter, park_nextTid]
    rfl
  have hb2 : ∀ p ∈ (park L t2 (park L t1 s).2).2.parked L,
      p.1 < (park L t2 (park L t1 s).2).2.counter := by
    rw [hp2, park_counter, park_counter]
    intro p hp
    rw [List.mem_cons, List.mem_singleton] at hp
    rcases hp with hp | hp
    · rw [hp]
      exact Nat.lt_succ_of_lt (Nat.lt_succ_self _)
    · rw [hp]
      exact Nat.lt_succ_self _
  have hp3 : (park L t3 (park L t2 (park L t1 s).2).2).2.parked L
      = [(s.counter, s.nextTid), (s.counter + 1, s.nextTid + 1),
         (s.counter + 2, s.nextTid + 2)] := by
    rw [park_parked_self _ t3 _ hb2, hp2, park_counter, park_counter,
      park_nextTid, park_nextTid]
    rfl
  have ht1 : (park L t1 s).2.tickets s.nextTid = ⟨t1, s.counter, L⟩ :=
    park_tickets_self L t1 s
  have hne1 : s.nextTid ≠ (park L t1 s).2.nextTid := by
    rw [park_nextTid]
    omega
  have ht1b : (park L t2 (park L t1 s).2).2.tickets s.nextTid
      = ⟨t1, s.counter, L⟩ := by
    rw [park_tickets_ne _ t2 _ hne1, ht1]
  have ht2 : (park L t2 (park L t1 s).2).2.tickets (s.nextTid + 1)
      = ⟨t2, s.counter + 1, L⟩ := by
    have h := park_tickets_self L t2 (park L t1 s).2
    rw [park_nextTid, park_counter] at h
    exact h
  have hne2 : s.nextTid ≠ (park L t2 (park L t1 s).2).2.nextTid := by
    rw [park_nextTid, park_nextTid]
    omega
  have hne3 : s.nextTid + 1 ≠ (park L t2 (park L t1 s).2).2.nextTid := by
    rw [park_nextTid, park_nextTid]
    omega
  have ht3a : (park L t3 (park L t2 (park L t1 s).2).2).2.tickets s.nextTid
      = ⟨t1, s.counter, L⟩ := by
    rw [park_tickets_ne _ t3 _ hne2, ht1b]
  have ht3b : (park L t3 (park L t2 (park L t1 s).2).2).2.tickets
      (s.nextTid + 1) = ⟨t2, s.counter + 1, L⟩ := by
    rw [park_tickets_ne _ t3 _ hne3, ht2]
  have ht3c : (park L t3 (park L t2 (park L t1 s).2).2).2.tickets
      (s.nextTid + 2) = ⟨t3, s.counter + 2, L⟩ := by
    have h := park_tickets_self L t3 (park L t2 (park L t1 s).2).2
    rw [park_nextTid, park_nextTid, park_counter, park_counter] at h
    exact h
  have habt : (abortTicket (s.nextTid + 1)
      (park L t3 (park L t2 (park L t1 s).2).2).2).1.parked L
      = delKey (s.counter + 1)
          ((park L t3 (park L t2 (park L t1 s).2).2).2.parked L) := by
    show (upd (park L t3 (park L t2 (park L t1 s).2).2).2.parked
        ((park L t3 (park L t2 (park L t1 s).2).2).2.tickets
          (s.nextTid + 1)).lot
        (delKey
          ((park L t3 (park L t2 (park L t1 s).2).2).2.tickets
            (s.nextTid + 1)).idx
          ((park L t3 (park L t2 (park L t1 s).2).2).2.parked
            ((park L t3 (park L t2 (park L t1 s).2).2).2.tickets
              (s.nextTid + 1)).lot))) L = _
    rw [ht3b]
    exact upd_same _ _ _
  have habort : (abortTicket (s.nextTid + 1)
      (park L t3 (park L t2 (park L t1 s).2).2).2).1.parked L
      = [(s.counter, s.nextTid), (s.counter + 2, s.nextTid + 2)] := by
    rw [habt, hp3]
    simp [delKey, List.filter_cons]
  have hunp : (unpark L Cnt.all (abortTicket (s.nextTid + 1)
      (park L t3 (park L t2 (park L t1 s).2).2).2).1).1 = [t1, t3] := by
    rw [unpark_all_fst, tasksOf, abortTicket_tickets, habort]
    simp [ht3a, ht3c]
  rw [hPA]
  refine ⟨rfl, habort, hunp, ?_⟩
  show ((unpark L Cnt.all (abortTicket (s.nextTid + 1)
      (park L t3 (park L t2 (park L t1 s).2).2).2).1).2.parked L).length = 0
  rw [unpark_all_parked]
  rfl

theorem C3_cancel_removes_one_witness :
    initState.parked 0 = [] ∧
    (unpark 0 Cnt.all
        (abortTicket (initState.nextTid + 1)
          (parkAll 0 [10, 20, 30] initState)).1).1
      = [10, 30] :=
  ⟨rfl, (C3_cancel_removes_one initState 0 10 20 30 rfl).2.2.1⟩

/-- C9: the ticket record is one shared mutable object, aliased by the
owning table and by the abort callback created in `park`; `repark`
overwrites its `idx` and `lot` fields in place.  Hence for a task parked in
Q1 and transferred to Q2 by `repark(count=ALL)`, the ticket now carries
`lot = Q2` and a fresh sequence number, and invoking the abort callback
afterwards deletes the ticket from Q2's table under that new sequence
number, leaves Q1's table untouched, and still reports `Abort.SUCCEEDED`. -/
theorem C9_abort_after_repark (s : State) (Q1 Q2 t : Nat) (hs : WF s)
    (hne : Q2 ≠ Q1) (hempty : s.parked Q1 = []) :
    ∃ s2, repark Q1 (PyVal.lot Q2) Cnt.all (park Q1 t s).2
        = Except.ok s2 ∧
      (s2.tickets (park Q1 t s).1).lot = Q2 ∧
      (s2.tickets (park Q1 t s).1).idx = s.counter + 1 ∧
      s2.parked Q2 = s.parked Q2 ++ [(s.counter + 1, s.nextTid)] ∧
      (abortTicket (park Q1 t s).1 s2).2 = Abort.SUCCEEDED ∧
      (abortTicket (park Q1 t s).1 s2).1.parked Q2 = s.parked Q2 ∧
      (abortTicket (park Q1 t s).1 s2).1.parked Q1 = s2.parked Q1 := by
  have h0 : ∀ p ∈ s.parked Q1, p.1 < s.counter := by
    rw [hempty]
    intro p hp
    simp at hp
  have hp1 : (park Q1 t s).2.parked Q1 = [(s.counter, s.nextTid)] := by
    rw [park_parked_self Q1 t s h0, hempty, List.nil_append]
  have hkeq : cntVal Cnt.all ((park Q1 t s).2.parked Q1).length = 1 := by
    rw [hp1]
    rfl
  have hstep : reparkLoop Q1 Q2 1 (park Q1 t s).2
      = depositTicket Q2 s.nextTid
          { (park Q1 t s).2 with
            parked := upd (park Q1 t s).2.parked Q1 [] } := by
    rw [reparkLoop_succ_cons Q1 Q2 0 hp1]
    rfl
  have ht : (depositTicket Q2 s.nextTid
      { (park Q1 t s).2 with
        parked := upd (park Q1 t s).2.parked Q1 [] }).tickets s.nextTid
      = ⟨t, s.counter + 1, Q2⟩ := by
    rw [depositTicket_tickets_self]
    show (⟨((park Q1 t s).2.tickets s.nextTid).task,
      (park Q1 t s).2.counter, Q2⟩ : Ticket) = _
    rw [park_tickets_self, park_counter]
  have hsp : upd (park Q1 t s).2.parked Q1 [] Q2 = s.parked Q2 := by
    rw [upd_ne _ _ _ hne, park_parked_ne Q1 t s hne]
  have hq2 : (depositTicket Q2 s.nextTid
      { (park Q1 t s).2 with
        parked := upd (park Q1 t s).2.parked Q1 [] }).parked Q2
      = s.parked Q2 ++ [(s.counter + 1, s.nextTid)] := by
    have hbound : ∀ p ∈ upd (park Q1 t s).2.parked Q1 [] Q2,
        p.1 < s.counter + 1 := by
      rw [hsp]
      intro p hp
      exact Nat.lt_succ_of_lt (hs.2.1 Q2 p hp).1
    rw [depositTicket_parked_self Q2 s.nextTid _ hbound]
    show upd (park Q1 t s).2.parked Q1 [] Q2
      ++ [((park Q1 t s).2.counter, s.nextTid)] = _
    rw [hsp, park_counter]
  have hq1 : (depositTicket Q2 s.nextTid
      { (park Q1 t s).2 with
        parked := upd (park Q1 t s).2.parked Q1 [] }).parked Q1 = [] := by
    rw [depositTicket_parked_ne Q2 s.nextTid _ (Ne.symm hne)]
    exact upd_same _ _ _
  have hdelq2 : delKey (s.counter + 1)
      (s.parked Q2 ++ [(s.counter + 1, s.nextTid)]) = s.parked Q2 := by
    rw [delKey_append]
    have h2 : delKey (s.counter + 1) (s.parked Q2) = s.parked Q2 := by
      apply delKey_eq_self
      intro p hp
      have := (hs.2.1 Q2 p hp).1
      omega
    rw [h2]
    simp [delKey]
  refine ⟨depositTicket Q2 s.nextTid
      { (park Q1 t s).2 with
        parked := upd (park Q1 t s).2.parked Q1 [] },
    ?_, ?_, ?_, hq2, rfl, ?_, ?_⟩
  · rw [repark_lot, hkeq, hstep]
  · rw [park_fst, ht]
  · rw [park_fst, ht]
  · show (upd (depositTicket Q2 s.nextTid
      { (park Q1 t s).2 with
        parked := upd (park Q1 t s).2.parked Q1 [] }).parked
      ((depositTicket Q2 s.nextTid
        { (park Q1 t s).2 with
          parked := upd (park Q1 t s).2.parked Q1 [] }).tickets
        (park Q1 t s).1).lot
      (delKey
        ((depositTicket Q2 s.nextTid
          { (park Q1 t s).2 with
            parked := upd (park Q1 t s).2.parked Q1 [] }).tickets
          (park Q1 t s).1).idx
        ((depositTicket Q2 s.nextTid
          { (park Q1 t s).2 with
            parked := upd (park Q1 t s).2.parked Q1 [] }).parked
          ((depositTicket Q2 s.nextTid
            { (park Q1 t s).2 with
              parked := upd (park Q1 t s).2.parked Q1 [] }).tickets
            (park Q1 t s).1).lot))) Q2 = s.parked Q2
    rw [park_fst, ht]
    show upd _ Q2 (delKey (s.counter + 1) ((depositTicket Q2 s.nextTid
      { (park Q1 t s).2 with
        parked := upd (park Q1 t s).2.parked Q1 [] }).parked Q2)) Q2
      = s.parked Q2
    rw [upd_same, hq2, hdelq2]
  · show (upd (depositTicket Q2 s.nextTid
      { (park Q1 t s).2 with
        parked := upd (park Q1 t s).2.parked Q1 [] }).parked
      ((depositTicket Q2 s.nextTid
        { (park Q1 t s).2 with
          parked := upd (park Q1 t s).2.parked Q1 [] }).tickets
        (park Q1 t s).1).lot
      (delKey
        ((depositTicket Q2 s.nextTid
          { (park Q1 t s).2 with
            parked := upd (park Q1 t s).2.parked Q1 [] }).tickets
          (park Q1 t s).1).idx
        ((depositTicket Q2 s.nextTid
          { (park Q1 t s).2 with
            parked := upd (park Q1 t s).2.parked Q1 [] }).parked
          ((depositTicket Q2 s.nextTid
            { (park Q1 t s).2 with
              parked := upd (park Q1 t s).2.parked Q1 [] }).tickets
            (park Q1 t s).1).lot))) Q1
      = (depositTicket Q2 s.nextTid
        { (park Q1 t s).2 with
          parked := upd (park Q1 t s).2.parked Q1 [] }).parked Q1
    rw [park_fst, ht]
    exact upd_ne _ _ _ (Ne.symm hne)

theorem C9_abort_after_repark_witness :
    WF initState ∧ (1 : Nat) ≠ 0 ∧ initState.parked 0 = [] ∧
    (∃ s2, repark 0 (PyVal.lot 1) Cnt.all (park 0 7 initState).2
        = Except.ok s2 ∧
      (s2.tickets (park 0 7 initState).1).lot = 1 ∧
      (s2.tickets (park 0 7 initState).1).idx = initState.counter + 1 ∧
      s2.parked 1
        = initState.parked 1 ++ [(initState.counter + 1, initState.nextTid)] ∧
      (abortTicket (park 0 7 initState).1 s2).2 = Abort.SUCCEEDED ∧
      (abortTicket (park 0 7 initState).1 s2).1.parked 1
        = initState.parked 1 ∧
      (abortTicket (park 0 7 initState).1 s2).1.parked 0 = s2.parked 0) :=
  ⟨WF_initState, by decide, rfl,
    C9_abort_after_repark initState 0 1 7 WF_initState (by decide) rfl⟩
